import Mathlib

/-!
Verification of the filtering/extraction pipeline and the persistence model
of the data-visualization web application (src/app.py).

The embedding models the body of each route handler from the point where its
inputs are available as structured data:

* `generate_chart` — the filter loop (lines 172-189 of app.py) and the series
  extraction (lines 190-193).  A pandas DataFrame is modelled as a `Table`:
  a list of column names plus a list of rows, each row an association list
  from column name to scalar `Value`.  `df[col].astype(float)` is modelled by
  converting every cell of the current rows (failure anywhere aborts, like the
  pandas column conversion raising); a missing cell converts to NaN, and NaN
  fails every range comparison, as in pandas.  Exceptions raised inside the
  `try` block surface as a 400 response (`ChartResult.clientError`); exceptions
  raised outside it (e.g. `df[xcol]` with an absent column) are uncaught and
  surface as a 500 (`ChartResult.serverError`).
* `save_project` / `load_project` — the database is a list of project records
  plus an autoincrement counter.  `json.dumps` / `json.loads` are modelled by
  an executable printer (`dumps`) and parser (`loads`) over a JSON value type
  `J` (numbers restricted to integers).
* `save_png` — `str.split(",", 1)` and `base64.b64decode` (CPython's
  non-strict `a2b_base64`: characters outside the alphabet are discarded,
  padding terminates decoding, a dangling partial quad is an error) are
  modelled executably; the unpacking error on a comma-less input and the
  decode error are uncaught, hence `PngResult.serverError`.
-/

/-! ## Decimal numerals (used by the float parser and the JSON printer) -/

def digitsVal (ds : List Char) : Nat :=
  ds.foldl (fun a c => a * 10 + (c.toNat - 48)) 0

def natCharsAux : Nat → Nat → List Char
  | 0, _ => []
  | fuel + 1, n =>
    if n < 10 then [Char.ofNat (48 + n)]
    else natCharsAux fuel (n / 10) ++ [Char.ofNat (48 + n % 10)]

def natChars (n : Nat) : List Char := natCharsAux (n + 1) n

def intChars (n : Int) : List Char :=
  if n < 0 then '-' :: natChars n.natAbs else natChars n.natAbs

/-! ## Model of `float(...)` applied to a cell (pandas `astype(float)`)

`parseFloat?` accepts an optional sign followed by a decimal numeral with an
optional fractional part; everything else (the strings on which Python's
`float` raises `ValueError`) is `none`. -/

def parseUnsignedFloat? (cs : List Char) : Option ℚ :=
  let ip := cs.takeWhile (fun c => c ≠ '.')
  let rest := cs.dropWhile (fun c => c ≠ '.')
  match rest with
  | [] =>
    if ip ≠ [] ∧ ip.all Char.isDigit then some ((digitsVal ip : ℚ)) else none
  | _ :: fp =>
    if (ip ≠ [] ∨ fp ≠ []) ∧ ip.all Char.isDigit ∧ fp.all Char.isDigit then
      some ((digitsVal ip : ℚ) + (digitsVal fp : ℚ) / (10 : ℚ) ^ fp.length)
    else none

def parseFloat? (s : String) : Option ℚ :=
  match s.toList with
  | '-' :: rest => (parseUnsignedFloat? rest).map (fun q => -q)
  | '+' :: rest => parseUnsignedFloat? rest
  | cs => parseUnsignedFloat? cs

/-! ## Tables -/

/-- A scalar cell value of the in-memory table: string, number, or missing
(pandas NaN).  Numbers are modelled as rationals. -/
inductive Value where
  | str (s : String)
  | num (q : ℚ)
  | missing
deriving DecidableEq, Repr

/-- A row: association list from column name to cell value.  A column present
in the table but absent from the row reads as a missing cell (NaN). -/
abbrev Row := List (String × Value)

def getCell (r : Row) (c : String) : Value :=
  (r.lookup c).getD Value.missing

/-- The in-memory table produced by `read_table`: ordered column names and
ordered rows. -/
structure Table where
  cols : List String
  rows : List Row

/-- Result of converting one cell with `astype(float)`: a number, NaN, or a
raised `ValueError` (`none`). -/
inductive FloatVal where
  | nan
  | val (q : ℚ)
deriving DecidableEq

def cellToFloat? : Value → Option FloatVal
  | .num q => some (.val q)
  | .missing => some .nan
  | .str s => (parseFloat? s).map .val

/-- Does `hay` start with `needle`? -/
def charsStartWith : List Char → List Char → Bool
  | [], _ => true
  | c :: cs, d :: ds => c = d && charsStartWith cs ds
  | _ :: _, [] => false

/-- Does `needle` occur contiguously inside `hay`? -/
def charsContain (needle : List Char) : List Char → Bool
  | [] => needle.isEmpty
  | d :: ds => charsStartWith needle (d :: ds) || charsContain needle ds

/-- Case-insensitive substring containment.  This is the specification's
notion ("contains the given substring, case-insensitive"), kept to state the
text-predicate claim; the engine itself matches with `reSearchCI` below,
because `str.contains` interprets its pattern as a regular expression. -/
def strContainsCI (s t : String) : Bool :=
  charsContain (t.toList.map Char.toLower) (s.toList.map Char.toLower)

/-- The characters the `re` module treats specially inside a pattern. -/
def reMeta (c : Char) : Bool :=
  c = '.' ∨ c = '^' ∨ c = '$' ∨ c = '*' ∨ c = '+' ∨ c = '?' ∨ c = '\\' ∨
    c = '(' ∨ c = ')' ∨ c = '[' ∨ c = ']' ∨ c = '|' ∨ c = '\x7b' ∨ c = '\x7d'

/-- A pattern free of regex metacharacters (matched purely literally). -/
def metaFree (t : String) : Bool := t.toList.all fun c => !(reMeta c)

/-- Does the pattern match a prefix of the text?  `'.'` matches any
character; other pattern characters match case-insensitively. -/
def patMatchAt : List Char → List Char → Bool
  | [], _ => true
  | p :: ps, c :: cs => (p = '.' || p.toLower = c.toLower) && patMatchAt ps cs
  | _ :: _, [] => false

/-- Does the pattern match anywhere in the text (`re.search` semantics)? -/
def reSearch (ps : List Char) : List Char → Bool
  | [] => ps.isEmpty
  | c :: cs => patMatchAt ps (c :: cs) || reSearch ps cs

/-- Model of `str.contains(txt, case=False, na=False)` applied to one cell:
a case-insensitive regular-expression search (`regex=True` is the pandas
default).  The model covers patterns built from literal characters and the
`'.'` wildcard; other metacharacters (quantifiers, classes, groups — whose
compilation can also raise `re.error`) are outside the modelled fragment and
are matched literally here. -/
def reSearchCI (s t : String) : Bool :=
  reSearch t.toList s.toList

/-- The string rendering of a cell (`astype(str)`).  NaN renders as "nan". -/
def valueToString : Value → String
  | .str s => s
  | .num q =>
    if q.den = 1 then toString q.num
    else toString q.num ++ "/" ++ toString q.den
  | .missing => "nan"

/-! ## The filter engine (lines 172-189 of app.py) -/

/-- One per-column filter configuration, mirroring the JSON object
`{type, min, max, text}` read with `dict.get`. -/
structure FConf where
  type : Option String
  min : Option ℚ
  max : Option ℚ
  text : Option String
deriving DecidableEq

/-- The comparison `column-as-float ≥ bound` (when `isGe`) or `≤ bound`, for
one row; `none` models the conversion raising. NaN compares false. -/
def rangeTest (col : String) (isGe : Bool) (bound : ℚ) (r : Row) : Option Bool :=
  (cellToFloat? (getCell r col)).map fun fv =>
    match fv with
    | .nan => false
    | .val q => if isGe then decide (bound ≤ q) else decide (q ≤ bound)

/-- Filter a list of rows by a partial predicate; `none` anywhere models the
whole-column `astype(float)` raising (even on rows the mask would drop). -/
def filterConv : List Row → (Row → Option Bool) → Option (List Row)
  | [], _ => some []
  | r :: rs, p =>
    match p r, filterConv rs p with
    | some b, some rest => some (if b then r :: rest else rest)
    | _, _ => none

/-- The error text of a failed numeric conversion (the model's stand-in for
the pandas `ValueError` message). -/
def convErrMsg : String := "could not convert string to float"

/-- One bound of a range filter: `if mn is not None: df = df[df[col].astype(float) >= float(mn)]`
(resp. `<=` for the max bound).  A missing bound leaves the rows untouched. -/
def rangeStep (rows : List Row) (col : String) (isGe : Bool) (bound? : Option ℚ) :
    Except String (List Row) :=
  match bound? with
  | none => .ok rows
  | some m =>
    match filterConv rows (rangeTest col isGe m) with
    | none => .error convErrMsg
    | some l => .ok l

/-- Apply one filter configuration to the current rows: the body of the
`for col, fconf in filters.items()` loop. -/
def applyFConf (rows : List Row) (col : String) (fc : FConf) :
    Except String (List Row) :=
  if fc.type = some "range" then
    match rangeStep rows col true fc.min with
    | .error e => .error e
    | .ok rows1 => rangeStep rows1 col false fc.max
  else if fc.type = some "text" then
    let txt := fc.text.getD ""
    if txt = "" then .ok rows
    else .ok (rows.filter fun r => reSearchCI (valueToString (getCell r col)) txt)
  else .ok rows

/-- The whole filter loop.  Filter entries whose column is not in the table
are skipped; an error aborts the loop (caught by the `except` around it). -/
def applyFilters : List Row → List String → List (String × FConf) →
    Except String (List Row)
  | rows, _, [] => .ok rows
  | rows, cols, (col, fc) :: rest =>
    if col ∈ cols then
      match applyFConf rows col fc with
      | .error e => .error e
      | .ok rows1 => applyFilters rows1 cols rest
    else applyFilters rows cols rest

/-! ## generate_chart (lines 158-193 of app.py) -/

/-- Outcome of a `generate_chart` request (after the file was read):
a JSON body with the two arrays and the row count, a handled 400 client
error, or an uncaught exception (Flask 500). -/
inductive ChartResult where
  | ok (x : List String) (y : List Value) (rows : Nat)
  | clientError (msg : String)
  | serverError
deriving DecidableEq, Repr

def generate_chart (t : Table) (filters : List (String × FConf))
    (xcol ycol : String) : ChartResult :=
  if xcol = "" ∨ ycol = "" then .clientError "file,xcol,ycol required"
  else
    match applyFilters t.rows t.cols filters with
    | .error e => .clientError ("filtering error: " ++ e)
    | .ok rows =>
      if xcol ∈ t.cols then
        if ycol ∈ t.cols then
          .ok (rows.map fun r => valueToString (getCell r xcol))
            (rows.map fun r => getCell r ycol)
            rows.length
        else .serverError
      else .serverError

/-! ## JSON values, `json.dumps` and `json.loads`

The chart-configuration blob is an arbitrary JSON value.  JSON numbers are
modelled as integers.  The printer mirrors `json.dumps` with its default
separators (`", "` and `": "`) and escapes `"` and `\` in strings; the parser
accepts exactly the printer's output format (Python's `json.loads` accepts a
superset). -/

mutual
inductive J where
  | null : J
  | bool (b : Bool) : J
  | num (n : Int) : J
  | str (s : String) : J
  | arr (xs : JList) : J
  | obj (fs : JObj) : J
inductive JList where
  | nil : JList
  | cons (hd : J) (tl : JList) : JList
inductive JObj where
  | onil : JObj
  | ocons (k : String) (v : J) (tl : JObj) : JObj
end

deriving instance DecidableEq for J, JList, JObj

def escChars : List Char → List Char
  | [] => []
  | c :: cs => (if c = '"' ∨ c = '\\' then ['\\', c] else [c]) ++ escChars cs

mutual
def dumpsJ (j : J) : List Char :=
  match j with
  | .num n => intChars n
  | .str s => '"' :: escChars s.toList ++ ['"']
  | .arr xs => '[' :: dumpsArr xs ++ [']']
  | .obj fs => '\x7b' :: dumpsObj fs ++ ['\x7d']
  | .null => 'n' :: ['u', 'l', 'l']
  | .bool true => 't' :: ['r', 'u', 'e']
  | .bool false => 'f' :: ['a', 'l', 's', 'e']
termination_by structural j
def dumpsArr (xs : JList) : List Char :=
  match xs with
  | .nil => []
  | .cons x .nil => dumpsJ x
  | .cons x (.cons y tl) => dumpsJ x ++ ',' :: ' ' :: dumpsArr (.cons y tl)
termination_by structural xs
def dumpsObj (fs : JObj) : List Char :=
  match fs with
  | .onil => []
  | .ocons k v .onil => '"' :: escChars k.toList ++ '"' :: ':' :: ' ' :: dumpsJ v
  | .ocons k v (.ocons k2 v2 tl) =>
    '"' :: escChars k.toList ++ '"' :: ':' :: ' ' :: dumpsJ v ++
      ',' :: ' ' :: dumpsObj (.ocons k2 v2 tl)
termination_by structural fs
end

def dumpsKV (k : String) (v : J) : List Char :=
  '"' :: escChars k.toList ++ '"' :: ':' :: ' ' :: dumpsJ v

def dumps (j : J) : String := String.mk (dumpsJ j)

/-- Parse the body of a string literal (the opening quote already consumed),
accumulating characters in reverse. -/
def parseStrBody (cs acc : List Char) : Option (String × List Char) :=
  match cs with
  | [] => none
  | c :: rest =>
    if c = '"' then some (String.mk acc.reverse, rest)
    else if c = '\\' then
      match rest with
      | [] => none
      | c2 :: rest2 =>
        if c2 = '"' ∨ c2 = '\\' then parseStrBody rest2 (c2 :: acc) else none
    else parseStrBody rest (c :: acc)
termination_by structural cs

def parseNum : List Char → Option (Int × List Char)
  | [] => none
  | c :: rest =>
    if c = '-' then
      let ds := rest.takeWhile Char.isDigit
      if ds.isEmpty then none
      else some (-(digitsVal ds : Int), rest.dropWhile Char.isDigit)
    else
      let ds := (c :: rest).takeWhile Char.isDigit
      if ds.isEmpty then none
      else some ((digitsVal ds : Int), (c :: rest).dropWhile Char.isDigit)

/-- The value-parsing step, parametrised by the element/field parsers for the
next fuel level (see `parseJ`). -/
def parseJBody (pe : List Char → Option (JList × List Char))
    (pf : List Char → Option (JObj × List Char)) (cs : List Char) :
    Option (J × List Char) :=
  match cs with
  | [] => none
  | c :: rest =>
    if c = 'n' then
      match rest with
      | 'u' :: 'l' :: 'l' :: r => some (.null, r)
      | _ => none
    else if c = 't' then
      match rest with
      | 'r' :: 'u' :: 'e' :: r => some (.bool true, r)
      | _ => none
    else if c = 'f' then
      match rest with
      | 'a' :: 'l' :: 's' :: 'e' :: r => some (.bool false, r)
      | _ => none
    else if c = '"' then
      match parseStrBody rest [] with
      | some (s, r) => some (.str s, r)
      | none => none
    else if c = '[' then
      match rest with
      | [] => none
      | c2 :: r2 =>
        if c2 = ']' then some (.arr .nil, r2)
        else
          match pe (c2 :: r2) with
          | some (xs, r) => some (.arr xs, r)
          | none => none
    else if c = '\x7b' then
      match rest with
      | [] => none
      | c2 :: r2 =>
        if c2 = '\x7d' then some (.obj .onil, r2)
        else
          match pf (c2 :: r2) with
          | some (fs, r) => some (.obj fs, r)
          | none => none
    else
      match parseNum (c :: rest) with
      | some (n, r) => some (.num n, r)
      | none => none

/-- The element-list parsing step (after the opening bracket, nonempty case). -/
def parseElemsBody (pj : List Char → Option (J × List Char))
    (pe : List Char → Option (JList × List Char)) (cs : List Char) :
    Option (JList × List Char) :=
  match pj cs with
  | none => none
  | some (j, rest) =>
    match rest with
    | [] => none
    | c :: rest2 =>
      if c = ']' then some (.cons j .nil, rest2)
      else if c = ',' then
        match rest2 with
        | [] => none
        | c2 :: rest3 =>
          if c2 = ' ' then
            match pe rest3 with
            | none => none
            | some (tl, rest4) => some (.cons j tl, rest4)
          else none
      else none

/-- The field-list parsing step (after the opening brace, nonempty case). -/
def parseFieldsBody (pj : List Char → Option (J × List Char))
    (pf : List Char → Option (JObj × List Char)) (cs : List Char) :
    Option (JObj × List Char) :=
  match cs with
  | [] => none
  | c :: rest =>
    if c = '"' then
      match parseStrBody rest [] with
      | none => none
      | some (k, rest1) =>
        match rest1 with
        | [] => none
        | c1 :: rest2 =>
          if c1 = ':' then
            match rest2 with
            | [] => none
            | c2 :: rest3 =>
              if c2 = ' ' then
                match pj rest3 with
                | none => none
                | some (v, rest4) =>
                  match rest4 with
                  | [] => none
                  | c3 :: rest5 =>
                    if c3 = '\x7d' then some (.ocons k v .onil, rest5)
                    else if c3 = ',' then
                      match rest5 with
                      | [] => none
                      | c4 :: rest6 =>
                        if c4 = ' ' then
                          match pf rest6 with
                          | none => none
                          | some (tl, rest7) => some (.ocons k v tl, rest7)
                        else none
                    else none
              else none
          else none
    else none

mutual
def parseJ (fuel : Nat) (input : List Char) : Option (J × List Char) :=
  match fuel with
  | 0 => none
  | fuel + 1 => parseJBody (parseElems fuel) (parseFields fuel) input
termination_by structural fuel
def parseElems (fuel : Nat) (input : List Char) : Option (JList × List Char) :=
  match fuel with
  | 0 => none
  | fuel + 1 => parseElemsBody (parseJ fuel) (parseElems fuel) input
termination_by structural fuel
def parseFields (fuel : Nat) (input : List Char) : Option (JObj × List Char) :=
  match fuel with
  | 0 => none
  | fuel + 1 => parseFieldsBody (parseJ fuel) (parseFields fuel) input
termination_by structural fuel
end

def loads (s : String) : Option J :=
  match parseJ (s.length + 1) s.toList with
  | some (j, []) => some j
  | _ => none

/-! ## Project store (save_project, lines 200-217; load_project, lines 237-250) -/

/-- A row of the `project` table. -/
structure ProjectRec where
  id : Nat
  owner_id : Nat
  name : String
  file_path : String
  config_json : String
deriving DecidableEq, Repr

/-- The relational store: the project rows plus the autoincrement counter for
the primary key. -/
structure DB where
  nextId : Nat
  projects : List ProjectRec
deriving DecidableEq, Repr

inductive SaveResult where
  | ok (project_id : Nat)
  | err (status : Nat) (msg : String)
deriving DecidableEq, Repr

/-- `save_project`: requires a session, a `file` value that is truthy and
refers to an uploaded file, then inserts a new row (name defaults to
"Untitled", config to the empty object) and returns its id. -/
def save_project (db : DB) (uploads : List String) (sess : Option Nat)
    (name : Option String) (file : Option String) (config : Option J) :
    DB × SaveResult :=
  match sess with
  | none => (db, .err 401 "authentication required")
  | some uid =>
    match file with
    | none => (db, .err 400 "file required")
    | some f =>
      if f = "" then (db, .err 400 "file required")
      else if f ∈ uploads then
        let p : ProjectRec :=
          { id := db.nextId, owner_id := uid, name := name.getD "Untitled",
            file_path := f, config_json := dumps (config.getD (J.obj .onil)) }
        ({ nextId := db.nextId + 1, projects := db.projects ++ [p] }, .ok p.id)
      else (db, .err 404 "file not found")

inductive LoadResult where
  | ok (id : Nat) (name : String) (file : String) (config : J)
  | err (status : Nat) (msg : String)
  | serverError
deriving DecidableEq

/-- `load_project`: requires a session; a missing project and a project owned
by a different user take the same branch and produce the same 404 response.
A config blob that `json.loads` rejects would raise (uncaught). -/
def load_project (db : DB) (sess : Option Nat) (projId : Nat) : LoadResult :=
  match sess with
  | none => .err 401 "authentication required"
  | some uid =>
    match db.projects.find? (fun p => p.id == projId) with
    | none => .err 404 "project not found or access denied"
    | some p =>
      if p.owner_id ≠ uid then .err 404 "project not found or access denied"
      else
        match loads p.config_json with
        | none => .serverError
        | some cfg => .ok p.id p.name p.file_path cfg

/-! ## Export store (save_png, lines 256-272 of app.py) -/

/-- Model of CPython's base64 alphabet lookup. -/
def b64val (c : Char) : Option Nat :=
  if 'A' ≤ c ∧ c ≤ 'Z' then some (c.toNat - 65)
  else if 'a' ≤ c ∧ c ≤ 'z' then some (c.toNat - 97 + 26)
  else if '0' ≤ c ∧ c ≤ '9' then some (c.toNat - 48 + 52)
  else if c = '+' then some 62
  else if c = '/' then some 63
  else none

/-- Bytes produced by a (possibly partial) quad of 6-bit values. -/
def quadBytes : List Nat → List Nat
  | [a, b] => [a * 4 + b / 16]
  | [a, b, c] => [a * 4 + b / 16, b % 16 * 16 + c / 4]
  | [a, b, c, d] => [a * 4 + b / 16, b % 16 * 16 + c / 4, c % 4 * 64 + d]
  | _ => []

/-- Model of CPython's non-strict `binascii.a2b_base64`: characters outside
the alphabet are skipped, a full pad sequence ends decoding, and input ending
in a partial quad is an error (`none`). -/
def b64core : List Char → List Nat → Nat → List Nat → Option (List Nat)
  | [], quad, _, out => if quad.length = 0 then some out else none
  | c :: rest, quad, pads, out =>
    if c = '=' then
      if 2 ≤ quad.length then
        if 4 ≤ quad.length + (pads + 1) then some (out ++ quadBytes quad)
        else b64core rest quad (pads + 1) out
      else b64core rest quad pads out
    else
      match b64val c with
      | none => b64core rest quad pads out
      | some v =>
        if quad.length = 3 then b64core rest [] 0 (out ++ quadBytes (quad ++ [v]))
        else b64core rest (quad ++ [v]) 0 out

def b64decode? (payload : List Char) : Option (List Nat) :=
  b64core payload [] 0 []

/-- `"s".split(",", 1)` produces two parts only when a comma is present;
`none` models the single-element list whose unpacking raises `ValueError`. -/
def splitComma1 (s : String) : Option (List Char × List Char) :=
  if ',' ∈ s.toList then
    some (s.toList.takeWhile (fun c => c ≠ ','),
      (s.toList.dropWhile (fun c => c ≠ ',')).tail)
  else none

/-- Simplified model of `werkzeug.utils.secure_filename` for ASCII names:
keep alphanumerics, dot, underscore and dash. -/
def secureFilename (s : String) : String :=
  String.mk (s.toList.filter fun c => c.isAlphanum ∨ c = '.' ∨ c = '_' ∨ c = '-')

/-- Outcome of a `save_png` request: a written file (name and bytes) with its
retrieval url, a handled 400, or an uncaught exception (Flask 500). -/
inductive PngResult where
  | ok (filename : String) (bytes : List Nat) (url : String)
  | clientError (msg : String)
  | serverError
deriving DecidableEq, Repr

/-- The default export name; the timestamp embedded by the code is irrelevant
to the claims and elided. -/
def defaultPngName : String := "chart.png"

def save_png (name : Option String) (dataURL : Option String) : PngResult :=
  match dataURL with
  | none => .clientError "dataURL required"
  | some d =>
    if d = "" then .clientError "dataURL required"
    else
      match splitComma1 d with
      | none => .serverError
      | some (_header, payload) =>
        match b64decode? payload with
        | none => .serverError
        | some raw =>
          let safe := secureFilename (name.getD defaultPngName)
          .ok safe raw ("/exports/" ++ safe)

/-- The file written by a `save_png` request, if any. -/
def PngResult.written? : PngResult → Option (String × List Nat)
  | .ok n bs _ => some (n, bs)
  | _ => none

/-! ## Derived row predicates (proof artifacts over the filter engine) -/

/-- Total version of one range comparison: a missing bound passes, and a row
whose cell does not convert is mapped to `false` (it can only be reached when
the partial test is never consulted on that row). -/
def rangeTestD (col : String) (isGe : Bool) (bound? : Option ℚ) (r : Row) : Bool :=
  match bound? with
  | none => true
  | some m => (rangeTest col isGe m r).getD false

/-- The pointwise row predicate of one filter configuration. -/
def rowPassD (col : String) (fc : FConf) (r : Row) : Bool :=
  if fc.type = some "range" then
    rangeTestD col true fc.min r && rangeTestD col false fc.max r
  else if fc.type = some "text" then
    let txt := fc.text.getD ""
    if txt = "" then true
    else reSearchCI (valueToString (getCell r col)) txt
  else true

/-- The pointwise row predicate of a whole filter specification (entries whose
column is absent from the table are skipped). -/
def specPred (cols : List String) (fs : List (String × FConf)) (r : Row) : Bool :=
  fs.all fun cf => if cf.1 ∈ cols then rowPassD cf.1 cf.2 r else true

mutual
/-- Structural size of a JSON value, used as parser fuel in the round-trip
argument. -/
def sizeJ (j : J) : Nat :=
  match j with
  | .arr xs => 1 + sizeL xs
  | .obj fs => 1 + sizeO fs
  | _ => 1
termination_by structural j
def sizeL (xs : JList) : Nat :=
  match xs with
  | .nil => 0
  | .cons x tl => 1 + sizeJ x + sizeL tl
termination_by structural xs
def sizeO (fs : JObj) : Nat :=
  match fs with
  | .onil => 0
  | .ocons _ v tl => 1 + sizeJ v + sizeO tl
termination_by structural fs
end

/-- A continuation that cannot extend a decimal numeral: its first character,
if any, is not a digit. -/
def safeRest (rest : List Char) : Prop :=
  ∀ c, rest.head? = some c → c.isDigit = false

instance exceptDecEq {ε α : Type} [DecidableEq ε] [DecidableEq α] :
    DecidableEq (Except ε α) := fun x y =>
  match x, y with
  | .ok a, .ok b =>
    if h : a = b then isTrue (by rw [h])
    else isFalse (by intro hc; injection hc; exact h (by assumption))
  | .ok _, .error _ => isFalse (fun hc => Except.noConfusion hc)
  | .error _, .ok _ => isFalse (fun hc => Except.noConfusion hc)
  | .error e, .error f =>
    if h : e = f then isTrue (by rw [h])
    else isFalse (by intro hc; injection hc; exact h (by assumption))

/-! # Theorems

General lemmas about the filter engine, then one theorem (with witness or
counterexample) per specification claim. -/

theorem filterConv_ok_eq (p : Row → Option Bool) :
    ∀ (rows l : List Row), filterConv rows p = some l →
      l = rows.filter fun r => (p r).getD false := by
  intro rows
  induction rows with
  | nil =>
    intro l h
    simp only [filterConv, Option.some.injEq] at h
    simp [← h]
  | cons r rs ih =>
    intro l h
    simp only [filterConv] at h
    cases hp : p r with
    | none => rw [hp] at h; simp at h
    | some b =>
      rw [hp] at h
      cases hrec : filterConv rs p with
      | none => rw [hrec] at h; simp at h
      | some rest =>
        rw [hrec] at h
        simp only [Option.some.injEq] at h
        rw [List.filter_cons, ← ih rest hrec, hp]
        cases b <;> simp [← h]

theorem filterConv_none (p : Row → Option Bool) :
    ∀ (rows : List Row) (r : Row), r ∈ rows → p r = none →
      filterConv rows p = none := by
  intro rows
  induction rows with
  | nil => intro r h; simp at h
  | cons r0 rs ih =>
    intro r hmem hp
    rcases List.mem_cons.mp hmem with heq | htl
    · subst heq; simp [filterConv, hp]
    · simp only [filterConv]
      cases hp0 : p r0 with
      | none => rfl
      | some b => rw [ih r htl hp]

theorem rangeStep_ok_eq (rows l : List Row) (col : String) (isGe : Bool)
    (bound? : Option ℚ) (h : rangeStep rows col isGe bound? = .ok l) :
    l = rows.filter (rangeTestD col isGe bound?) := by
  cases bound? with
  | none =>
    simp only [rangeStep, Except.ok.injEq] at h
    subst h
    exact (List.filter_eq_self.mpr fun r _ => rfl).symm
  | some m =>
    simp only [rangeStep] at h
    cases hfc : filterConv rows (rangeTest col isGe m) with
    | none => rw [hfc] at h; simp at h
    | some l1 =>
      rw [hfc] at h
      simp only [Except.ok.injEq] at h
      subst h
      rw [filterConv_ok_eq _ _ _ hfc]
      exact List.filter_congr fun r _ => rfl

theorem rangeStep_error (rows : List Row) (col : String) (isGe : Bool) (m : ℚ)
    (r : Row) (hr : r ∈ rows) (hbad : cellToFloat? (getCell r col) = none) :
    rangeStep rows col isGe (some m) = .error convErrMsg := by
  have hnone : rangeTest col isGe m r = none := by
    simp [rangeTest, hbad]
  simp only [rangeStep]
  rw [filterConv_none _ rows r hr hnone]

theorem specPred_cons (cols : List String) (col : String) (fc : FConf)
    (fs : List (String × FConf)) (r : Row) :
    specPred cols ((col, fc) :: fs) r =
      ((if col ∈ cols then rowPassD col fc r else true) && specPred cols fs r) := by
  simp only [specPred, List.all_cons]

theorem applyFConf_ok_eq (rows l : List Row) (col : String) (fc : FConf)
    (h : applyFConf rows col fc = .ok l) :
    l = rows.filter (rowPassD col fc) := by
  by_cases ht : fc.type = some "range"
  · simp only [applyFConf, ht] at h
    simp only [reduceIte] at h
    cases h1 : rangeStep rows col true fc.min with
    | error e => rw [h1] at h; simp at h
    | ok rows1 =>
      rw [h1] at h
      rw [rangeStep_ok_eq rows1 l col false fc.max h,
        rangeStep_ok_eq rows rows1 col true fc.min h1, List.filter_filter]
      refine List.filter_congr fun r _ => ?_
      have hpass : rowPassD col fc r =
          (rangeTestD col true fc.min r && rangeTestD col false fc.max r) := by
        simp [rowPassD, ht]
      rw [hpass]
      exact Bool.and_comm _ _
  · by_cases htx : fc.type = some "text"
    · by_cases he : fc.text.getD "" = ""
      · simp [applyFConf, ht, htx, he] at h
        subst h
        refine (List.filter_eq_self.mpr fun r _ => ?_).symm
        simp [rowPassD, ht, htx, he]
      · simp [applyFConf, ht, htx, he] at h
        rw [← h]
        refine List.filter_congr fun r _ => ?_
        simp [rowPassD, ht, htx, he]
    · simp [applyFConf, ht, htx] at h
      subst h
      refine (List.filter_eq_self.mpr fun r _ => ?_).symm
      simp [rowPassD, ht, htx]

theorem applyFilters_ok_eq :
    ∀ (fs : List (String × FConf)) (rows l : List Row) (cols : List String),
      applyFilters rows cols fs = .ok l → l = rows.filter (specPred cols fs) := by
  intro fs
  induction fs with
  | nil =>
    intro rows l cols h
    simp only [applyFilters, Except.ok.injEq] at h
    subst h
    exact (List.filter_eq_self.mpr fun r _ => rfl).symm
  | cons cf rest ih =>
    intro rows l cols h
    obtain ⟨col, fc⟩ := cf
    simp only [applyFilters] at h
    by_cases hc : col ∈ cols
    · rw [if_pos hc] at h
      cases hap : applyFConf rows col fc with
      | error e => rw [hap] at h; simp at h
      | ok rows1 =>
        rw [hap] at h
        rw [ih rows1 l cols h, applyFConf_ok_eq rows rows1 col fc hap,
          List.filter_filter]
        refine List.filter_congr fun r _ => ?_
        rw [specPred_cons, if_pos hc]
        exact Bool.and_comm _ _
    · rw [if_neg hc] at h
      rw [ih rows l cols h]
      refine List.filter_congr fun r _ => ?_
      rw [specPred_cons, if_neg hc, Bool.true_and]

theorem applyFilters_append_ok :
    ∀ (fs1 : List (String × FConf)) (rows l1 : List Row) (cols : List String)
      (fs2 : List (String × FConf)),
      applyFilters rows cols fs1 = .ok l1 →
      applyFilters rows cols (fs1 ++ fs2) = applyFilters l1 cols fs2 := by
  intro fs1
  induction fs1 with
  | nil =>
    intro rows l1 cols fs2 h
    simp only [applyFilters, Except.ok.injEq] at h
    subst h
    simp
  | cons cf rest ih =>
    intro rows l1 cols fs2 h
    obtain ⟨col, fc⟩ := cf
    simp only [applyFilters, List.cons_append] at h ⊢
    by_cases hc : col ∈ cols
    · rw [if_pos hc] at h ⊢
      cases hap : applyFConf rows col fc with
      | error e => rw [hap] at h; simp at h
      | ok rows1 =>
        rw [hap] at h
        exact ih rows1 l1 cols fs2 h
    · rw [if_neg hc] at h ⊢
      exact ih rows l1 cols fs2 h

theorem specPred_append (cols : List String) (fs1 fs2 : List (String × FConf))
    (r : Row) :
    specPred cols (fs1 ++ fs2) r = (specPred cols fs1 r && specPred cols fs2 r) := by
  simp [specPred, List.all_append]

/-! ## Claim C1 — order of filter application -/

/-- C1 (counterexample): applying filter specification F1 (a text predicate on
column A) and then F2 (a bounded range predicate on column B) to a one-row
table succeeds with an empty row set, while applying F2 and then F1 to the
same table fails with a conversion error — the text filter dropped the only
row before the range filter had to convert the non-numeric B cell.  So the
order of application does affect the outcome, contradicting the claim. -/
theorem filterEngine_order_dependent_cex :
    applyFilters [[("A", Value.str "dog"), ("B", Value.str "bad")]] ["A", "B"]
        ([("A", ⟨some "text", none, none, some "cat"⟩)] ++
          [("B", ⟨some "range", some 0, none, none⟩)]) = Except.ok [] ∧
    applyFilters [[("A", Value.str "dog"), ("B", Value.str "bad")]] ["A", "B"]
        ([("B", ⟨some "range", some 0, none, none⟩)] ++
          [("A", ⟨some "text", none, none, some "cat"⟩)]) =
      Except.error convErrMsg ∧
    (Except.ok [] : Except String (List Row)) ≠ Except.error convErrMsg := by
  refine ⟨by decide, by decide, by decide⟩

/-- C1 (amended): whenever both application orders complete without a
filtering error, the two final row lists are equal.  (A numeric-conversion
failure can still make one order fail while the other succeeds, as the
counterexample shows.) -/
theorem filterEngine_comm_of_both_ok (t : Table)
    (fs1 fs2 : List (String × FConf)) (l12 l21 : List Row)
    (h12 : applyFilters t.rows t.cols (fs1 ++ fs2) = .ok l12)
    (h21 : applyFilters t.rows t.cols (fs2 ++ fs1) = .ok l21) :
    l12 = l21 := by
  rw [applyFilters_ok_eq _ _ _ _ h12, applyFilters_ok_eq _ _ _ _ h21]
  refine List.filter_congr fun r _ => ?_
  rw [specPred_append, specPred_append]
  exact Bool.and_comm _ _

theorem filterEngine_comm_of_both_ok_witness :
    applyFilters
        [[("A", Value.num 1), ("B", Value.str "cat")],
         [("A", Value.num 5), ("B", Value.str "dog")],
         [("A", Value.num 10), ("B", Value.str "cattle")]] ["A", "B"]
        ([("A", ⟨some "range", some 2, none, none⟩)] ++
          [("B", ⟨some "text", none, none, some "cat"⟩)]) =
      Except.ok [[("A", Value.num 10), ("B", Value.str "cattle")]] ∧
    applyFilters
        [[("A", Value.num 1), ("B", Value.str "cat")],
         [("A", Value.num 5), ("B", Value.str "dog")],
         [("A", Value.num 10), ("B", Value.str "cattle")]] ["A", "B"]
        ([("B", ⟨some "text", none, none, some "cat"⟩)] ++
          [("A", ⟨some "range", some 2, none, none⟩)]) =
      Except.ok [[("A", Value.num 10), ("B", Value.str "cattle")]] ∧
    [[("A", Value.num 10), ("B", Value.str "cattle")]] =
      [[("A", Value.num 10), ("B", Value.str "cattle")]] :=
  ⟨by decide, by decide,
    filterEngine_comm_of_both_ok
      ⟨["A", "B"],
        [[("A", Value.num 1), ("B", Value.str "cat")],
         [("A", Value.num 5), ("B", Value.str "dog")],
         [("A", Value.num 10), ("B", Value.str "cattle")]]⟩
      [("A", ⟨some "range", some 2, none, none⟩)]
      [("B", ⟨some "text", none, none, some "cat"⟩)]
      [[("A", Value.num 10), ("B", Value.str "cattle")]]
      [[("A", Value.num 10), ("B", Value.str "cattle")]]
      (by decide) (by decide)⟩

/-! ## Claim C2 — non-numeric cell under a bounded range predicate -/

/-- C2: if, at the point where a range predicate carrying at least one bound
is applied, the remaining rows contain a cell of that column that cannot be
converted to a number, then the whole `generate_chart` request fails with the
filtering 400 client error — no per-row skipping, and no x/y arrays are
produced (the `clientError` result carries none). -/
theorem rangeFilter_nonnumeric_fails_request
    (t : Table) (fs1 fs2 : List (String × FConf)) (col : String) (fc : FConf)
    (xcol ycol : String) (rows1 : List Row) (r : Row)
    (hx : xcol ≠ "") (hy : ycol ≠ "")
    (h1 : applyFilters t.rows t.cols fs1 = .ok rows1)
    (hcol : col ∈ t.cols)
    (htype : fc.type = some "range")
    (hbound : fc.min.isSome ∨ fc.max.isSome)
    (hr : r ∈ rows1)
    (hbad : cellToFloat? (getCell r col) = none) :
    generate_chart t (fs1 ++ (col, fc) :: fs2) xcol ycol =
      .clientError ("filtering error: " ++ convErrMsg) := by
  have happ : applyFConf rows1 col fc = .error convErrMsg := by
    cases hm : fc.min with
    | some m =>
      have hstep := rangeStep_error rows1 col true m r hr hbad
      simp [applyFConf, htype, hm, hstep]
    | none =>
      cases hM : fc.max with
      | some m =>
        have hstep := rangeStep_error rows1 col false m r hr hbad
        have hnone : rangeStep rows1 col true none = Except.ok rows1 := rfl
        simp [applyFConf, htype, hm, hM, hnone, hstep]
      | none => exact absurd hbound (by simp [hm, hM])
  have herr : applyFilters t.rows t.cols (fs1 ++ (col, fc) :: fs2) =
      .error convErrMsg := by
    rw [applyFilters_append_ok fs1 t.rows rows1 t.cols _ h1]
    simp [applyFilters, hcol, happ]
  simp [generate_chart, hx, hy, herr]

theorem rangeFilter_nonnumeric_fails_request_witness :
    cellToFloat? (getCell [("A", Value.str "bad")] "A") = none ∧
    generate_chart ⟨["A"], [[("A", Value.str "bad")]]⟩
        [("A", ⟨some "range", some 0, none, none⟩)] "A" "A" =
      ChartResult.clientError ("filtering error: " ++ convErrMsg) :=
  ⟨by decide,
    rangeFilter_nonnumeric_fails_request
      ⟨["A"], [[("A", Value.str "bad")]]⟩ [] []
      "A" ⟨some "range", some 0, none, none⟩ "A" "A"
      [[("A", Value.str "bad")]] [("A", Value.str "bad")]
      (by decide) (by decide) rfl (by decide) rfl (Or.inl rfl)
      (by decide) (by decide)⟩

/-! ## Claim C3 — absent x/y column -/

/-- C3 (counterexample): with x column "B" absent from the table, the request
does not produce a handled ColumnError client response; `df[xcol]` raises an
uncaught KeyError, i.e. an unhandled server failure. -/
theorem missingColumn_cex :
    generate_chart ⟨["A"], [[("A", Value.num 1)]]⟩ [] "B" "A" =
      ChartResult.serverError := by decide

/-- C3 (amended): when the named x column or y column is absent from the
table (and filtering itself did not fail first), `generate_chart` fails with
an uncaught exception — an unhandled server failure, not a ColumnError client
error. -/
theorem missingColumn_serverError (t : Table) (fs : List (String × FConf))
    (xcol ycol : String) (l : List Row)
    (hx : xcol ≠ "") (hy : ycol ≠ "")
    (hfs : applyFilters t.rows t.cols fs = .ok l)
    (hmiss : xcol ∉ t.cols ∨ ycol ∉ t.cols) :
    generate_chart t fs xcol ycol = .serverError := by
  rcases hmiss with hm | hm
  · simp [generate_chart, hx, hy, hfs, hm]
  · simp [generate_chart, hx, hy, hfs, hm]

theorem missingColumn_serverError_witness :
    ("A" ∉ (["A"] : List String) ∨ "B" ∉ (["A"] : List String)) ∧
    generate_chart ⟨["A"], [[("A", Value.num 1)]]⟩ [] "A" "B" =
      ChartResult.serverError :=
  ⟨Or.inr (by decide),
    missingColumn_serverError ⟨["A"], [[("A", Value.num 1)]]⟩ [] "A" "B"
      [[("A", Value.num 1)]] (by decide) (by decide) rfl (Or.inr (by decide))⟩

/-! ## Claim C7 — parallel series extraction -/

/-- C7: on a successful request, the returned x array is the text rendering
of the x column of the filtered rows, the y array is the native y-column
values of the same rows (both in row order), and both lengths equal the
reported row count. -/
theorem seriesExtractor_ok (t : Table) (fs : List (String × FConf))
    (xcol ycol : String) (l : List Row)
    (hx : xcol ≠ "") (hy : ycol ≠ "")
    (hxc : xcol ∈ t.cols) (hyc : ycol ∈ t.cols)
    (hfs : applyFilters t.rows t.cols fs = .ok l) :
    generate_chart t fs xcol ycol =
      ChartResult.ok (l.map fun r => valueToString (getCell r xcol))
        (l.map fun r => getCell r ycol) l.length ∧
    (l.map fun r => valueToString (getCell r xcol)).length = l.length ∧
    (l.map fun r => getCell r ycol).length = l.length := by
  refine ⟨?_, by simp, by simp⟩
  simp [generate_chart, hx, hy, hxc, hyc, hfs]

theorem seriesExtractor_ok_witness :
    generate_chart ⟨["A", "B"], [[("A", Value.num 1), ("B", Value.num 7)]]⟩
        [] "A" "B" =
      ChartResult.ok ["1"] [Value.num 7] 1 ∧
    generate_chart ⟨["A", "B"], [[("A", Value.num 1), ("B", Value.num 7)]]⟩
        [] "A" "B" =
      ChartResult.ok
        ([[("A", Value.num 1), ("B", Value.num 7)]].map fun r =>
          valueToString (getCell r "A"))
        ([[("A", Value.num 1), ("B", Value.num 7)]].map fun r =>
          getCell r "B")
        ([[("A", Value.num 1), ("B", Value.num 7)]] : List Row).length :=
  ⟨by decide,
    (seriesExtractor_ok
      ⟨["A", "B"], [[("A", Value.num 1), ("B", Value.num 7)]]⟩ []
      "A" "B" [[("A", Value.num 1), ("B", Value.num 7)]]
      (by decide) (by decide) (by decide) (by decide) rfl).1⟩

/-! ## Claim C8 — empty filter specification is the identity -/

/-- C8: with an empty filter specification the filter engine returns the
original rows unchanged, and `generate_chart` reports the original row count
with every row contributing in original order. -/
theorem emptyFilter_identity (t : Table) (xcol ycol : String)
    (hx : xcol ≠ "") (hy : ycol ≠ "")
    (hxc : xcol ∈ t.cols) (hyc : ycol ∈ t.cols) :
    applyFilters t.rows t.cols [] = Except.ok t.rows ∧
    generate_chart t [] xcol ycol =
      ChartResult.ok (t.rows.map fun r => valueToString (getCell r xcol))
        (t.rows.map fun r => getCell r ycol) t.rows.length := by
  refine ⟨rfl, ?_⟩
  simp [generate_chart, hx, hy, hxc, hyc, applyFilters]

theorem emptyFilter_identity_witness :
    applyFilters [[("A", Value.num 3)], [("A", Value.str "x")]] ["A"] [] =
      Except.ok [[("A", Value.num 3)], [("A", Value.str "x")]] ∧
    generate_chart ⟨["A"], [[("A", Value.num 3)], [("A", Value.str "x")]]⟩ [] "A" "A" =
      ChartResult.ok
        ([[("A", Value.num 3)], [("A", Value.str "x")]].map fun r =>
          valueToString (getCell r "A"))
        ([[("A", Value.num 3)], [("A", Value.str "x")]].map fun r => getCell r "A")
        ([[("A", Value.num 3)], [("A", Value.str "x")]] : List Row).length :=
  emptyFilter_identity ⟨["A"], [[("A", Value.num 3)], [("A", Value.str "x")]]⟩
    "A" "A" (by decide) (by decide) (by decide) (by decide)

/-! ## Claim C9 — text predicate semantics -/

theorem patMatchAt_no_dot :
    ∀ (ps cs : List Char), (∀ p ∈ ps, ¬ p = '.') →
      patMatchAt ps cs =
        charsStartWith (ps.map Char.toLower) (cs.map Char.toLower) := by
  intro ps
  induction ps with
  | nil => intro cs _; cases cs <;> rfl
  | cons p ps ih =>
    intro cs h
    have hp : ¬ p = '.' := h p (List.mem_cons_self p ps)
    cases cs with
    | nil => rfl
    | cons c cs2 =>
      rw [show patMatchAt (p :: ps) (c :: cs2) =
        ((decide (p = '.') || decide (p.toLower = c.toLower)) &&
          patMatchAt ps cs2) from rfl]
      rw [show charsStartWith ((p :: ps).map Char.toLower)
          ((c :: cs2).map Char.toLower) =
        (decide (p.toLower = c.toLower) &&
          charsStartWith (ps.map Char.toLower) (cs2.map Char.toLower)) from rfl]
      rw [ih cs2 (fun q hq => h q (List.mem_cons_of_mem p hq))]
      simp [hp]

theorem reSearch_no_dot :
    ∀ (cs ps : List Char), (∀ p ∈ ps, ¬ p = '.') →
      reSearch ps cs =
        charsContain (ps.map Char.toLower) (cs.map Char.toLower) := by
  intro cs
  induction cs with
  | nil => intro ps _; cases ps <;> rfl
  | cons c cs2 ih =>
    intro ps h
    rw [show reSearch ps (c :: cs2) =
      (patMatchAt ps (c :: cs2) || reSearch ps cs2) from rfl]
    rw [show charsContain (ps.map Char.toLower) ((c :: cs2).map Char.toLower) =
      (charsStartWith (ps.map Char.toLower) ((c :: cs2).map Char.toLower) ||
        charsContain (ps.map Char.toLower) (cs2.map Char.toLower)) from rfl]
    rw [patMatchAt_no_dot ps (c :: cs2) h, ih ps h]

/-- On patterns without regex metacharacters the engine's match is exactly
case-insensitive substring containment. -/
theorem reSearchCI_eq_contains (s t : String) (h : metaFree t = true) :
    reSearchCI s t = strContainsCI s t := by
  have hd : ∀ p ∈ t.toList, ¬ p = '.' := by
    intro p hp hdot
    have hall := (List.all_eq_true.mp h) p hp
    subst hdot
    simp [reMeta] at hall
  unfold reSearchCI strContainsCI
  exact reSearch_no_dot s.toList t.toList hd

/-- C9 (counterexample): under the pattern "c.t" the filter keeps the row
whose cell renders as "cat", although "cat" does not contain the substring
"c.t": `str.contains` treats its pattern as a regular expression
(`regex=True` is the pandas default), and `'.'` matches any character.  So
"a row passes iff its rendering contains t case-insensitively" is false of
the program. -/
theorem textPredicate_regex_cex :
    applyFConf [[("B", Value.str "cat")]] "B"
        ⟨some "text", none, none, some "c.t"⟩ =
      Except.ok [[("B", Value.str "cat")]] ∧
    strContainsCI (valueToString (getCell [("B", Value.str "cat")] "B")) "c.t" =
      false :=
  ⟨by decide, by decide⟩

/-- C9 (amended): a text predicate with an empty or absent substring passes
every row unchanged; a nonempty pattern free of regex metacharacters keeps a
row exactly when the string rendering of its cell contains the pattern
case-insensitively.  General patterns are matched as case-insensitive
regular expressions instead (see the counterexample); an invalid regex
raises `re.error` inside the caught region (a 400, outside this model). -/
theorem textPredicate_semantics_metaFree (rows : List Row) (col : String)
    (fc : FConf) (htx : fc.type = some "text") :
    (fc.text.getD "" = "" → applyFConf rows col fc = .ok rows) ∧
    (∀ t, fc.text = some t → t ≠ "" → metaFree t = true →
      applyFConf rows col fc =
        .ok (rows.filter fun r =>
          strContainsCI (valueToString (getCell r col)) t) ∧
      ∀ r, (r ∈ rows.filter fun r =>
          strContainsCI (valueToString (getCell r col)) t) ↔
        r ∈ rows ∧ strContainsCI (valueToString (getCell r col)) t = true) := by
  have hnr : ¬ fc.type = some "range" := by rw [htx]; simp
  constructor
  · intro he
    simp [applyFConf, hnr, htx, he]
  · intro t hs hne hmeta
    constructor
    · simp only [applyFConf, hnr, htx, hs]
      simp [hne]
      exact List.filter_congr fun r _ => reSearchCI_eq_contains _ t hmeta
    · intro r
      simp [List.mem_filter]

theorem textPredicate_semantics_metaFree_witness :
    metaFree "cat" = true ∧
    applyFConf
        [[("A", Value.num 1), ("B", Value.str "cat")],
         [("A", Value.num 5), ("B", Value.str "dog")],
         [("A", Value.num 10), ("B", Value.str "cattle")]] "B"
        ⟨some "text", none, none, some "cat"⟩ =
      Except.ok
        [[("A", Value.num 1), ("B", Value.str "cat")],
         [("A", Value.num 10), ("B", Value.str "cattle")]] ∧
    (applyFConf
        [[("A", Value.num 1), ("B", Value.str "cat")],
         [("A", Value.num 5), ("B", Value.str "dog")],
         [("A", Value.num 10), ("B", Value.str "cattle")]] "B"
        ⟨some "text", none, none, some "cat"⟩ =
      Except.ok
        ([[("A", Value.num 1), ("B", Value.str "cat")],
          [("A", Value.num 5), ("B", Value.str "dog")],
          [("A", Value.num 10), ("B", Value.str "cattle")]].filter fun r =>
          strContainsCI (valueToString (getCell r "B")) "cat") ∧
      ∀ r, (r ∈ ([[("A", Value.num 1), ("B", Value.str "cat")],
          [("A", Value.num 5), ("B", Value.str "dog")],
          [("A", Value.num 10), ("B", Value.str "cattle")]].filter fun r =>
          strContainsCI (valueToString (getCell r "B")) "cat")) ↔
        r ∈ [[("A", Value.num 1), ("B", Value.str "cat")],
          [("A", Value.num 5), ("B", Value.str "dog")],
          [("A", Value.num 10), ("B", Value.str "cattle")]] ∧
          strContainsCI (valueToString (getCell r "B")) "cat" = true) :=
  ⟨by decide, by decide,
    (textPredicate_semantics_metaFree
      [[("A", Value.num 1), ("B", Value.str "cat")],
       [("A", Value.num 5), ("B", Value.str "dog")],
       [("A", Value.num 10), ("B", Value.str "cattle")]] "B"
      ⟨some "text", none, none, some "cat"⟩ rfl).2 "cat" rfl (by decide)
      (by decide)⟩

/-! ## Claim C10 — range predicate with no bounds -/

/-- C10: a range predicate specifying neither a min nor a max bound performs
no numeric conversion: it never fails and leaves the rows unchanged, even
when the column contains values no conversion could handle. -/
theorem unboundedRange_noop (rows : List Row) (col : String) (fc : FConf)
    (ht : fc.type = some "range") (hmn : fc.min = none) (hmx : fc.max = none) :
    applyFConf rows col fc = .ok rows := by
  simp [applyFConf, ht, hmn, hmx, rangeStep]

theorem unboundedRange_noop_witness :
    cellToFloat? (getCell [("A", Value.str "not a number")] "A") = none ∧
    applyFConf [[("A", Value.str "not a number")]] "A"
        ⟨some "range", none, none, none⟩ =
      Except.ok [[("A", Value.str "not a number")]] :=
  ⟨by decide,
    unboundedRange_noop [[("A", Value.str "not a number")]] "A"
      ⟨some "range", none, none, none⟩ rfl rfl rfl⟩

/-! ## Decimal numeral round-trip lemmas -/

theorem digitChar_spec (k : Nat) (hk : k < 10) :
    (Char.ofNat (48 + k)).isDigit = true ∧ (Char.ofNat (48 + k)).toNat = 48 + k := by
  interval_cases k <;> exact ⟨by decide, by decide⟩

theorem digitsVal_append (ds : List Char) (d : Char) :
    digitsVal (ds ++ [d]) = 10 * digitsVal ds + (d.toNat - 48) := by
  simp only [digitsVal, List.foldl_append, List.foldl_cons, List.foldl_nil]
  omega

theorem natCharsAux_spec :
    ∀ fuel n, n < fuel →
      natCharsAux fuel n ≠ [] ∧ (∀ c ∈ natCharsAux fuel n, c.isDigit = true) ∧
        digitsVal (natCharsAux fuel n) = n := by
  intro fuel
  induction fuel with
  | zero => intro n h; exact absurd h (Nat.not_lt_zero n)
  | succ fuel ih =>
    intro n h
    by_cases h10 : n < 10
    · simp only [natCharsAux, if_pos h10]
      refine ⟨by simp, ?_, ?_⟩
      · intro c hc
        simp only [List.mem_singleton] at hc
        subst hc
        exact (digitChar_spec n h10).1
      · simp only [digitsVal, List.foldl_cons, List.foldl_nil]
        have := (digitChar_spec n h10).2
        omega
    · have h2 : n / 10 < fuel := by omega
      obtain ⟨hne, hdig, hval⟩ := ih (n / 10) h2
      simp only [natCharsAux, if_neg h10]
      have hmod : n % 10 < 10 := Nat.mod_lt _ (by omega)
      refine ⟨by simp, ?_, ?_⟩
      · intro c hc
        rcases List.mem_append.mp hc with h1 | h1
        · exact hdig c h1
        · simp only [List.mem_singleton] at h1
          subst h1
          exact (digitChar_spec (n % 10) hmod).1
      · rw [digitsVal_append, hval, (digitChar_spec (n % 10) hmod).2]
        omega

theorem natChars_spec (n : Nat) :
    natChars n ≠ [] ∧ (∀ c ∈ natChars n, c.isDigit = true) ∧
      digitsVal (natChars n) = n :=
  natCharsAux_spec (n + 1) n (Nat.lt_succ_self n)

theorem takeWhile_append_all {p : Char → Bool} :
    ∀ (l1 l2 : List Char), (∀ a ∈ l1, p a = true) →
      (∀ c, l2.head? = some c → p c = false) →
      (l1 ++ l2).takeWhile p = l1 ∧ (l1 ++ l2).dropWhile p = l2 := by
  intro l1
  induction l1 with
  | nil =>
    intro l2 _ h2
    cases l2 with
    | nil => simp
    | cons c t =>
      have hc := h2 c rfl
      simp [List.takeWhile_cons, List.dropWhile_cons, hc]
  | cons a l ih =>
    intro l2 h1 h2
    have hpa : p a = true := h1 a (List.mem_cons_self a l)
    obtain ⟨ht, hd⟩ := ih l2 (fun b hb => h1 b (List.mem_cons_of_mem a hb)) h2
    simp [List.takeWhile_cons, List.dropWhile_cons, hpa, ht, hd]

theorem sizeJ_pos (j : J) : 1 ≤ sizeJ j := by
  cases j <;> simp [sizeJ]

theorem mk_toList (s : String) : String.mk s.toList = s := by
  cases s
  rfl

theorem natChars_head (n : Nat) :
    ∃ c cs, natChars n = c :: cs ∧ c.isDigit = true := by
  obtain ⟨hne, hdig, _⟩ := natChars_spec n
  cases hc : natChars n with
  | nil => exact absurd hc hne
  | cons c cs => exact ⟨c, cs, rfl, hdig c (by rw [hc]; exact List.mem_cons_self c cs)⟩

theorem nonliteral_of_digit (c : Char) (h : c.isDigit = true) :
    ¬ c = 'n' ∧ ¬ c = 't' ∧ ¬ c = 'f' ∧ ¬ c = '"' ∧ ¬ c = '[' ∧
      ¬ c = '\x7b' ∧ ¬ c = '-' := by
  refine ⟨?_, ?_, ?_, ?_, ?_, ?_, ?_⟩ <;>
    (intro hc; subst hc; exact absurd h (by decide))

theorem parseNum_round (n : Int) (rest : List Char) (hrest : safeRest rest) :
    parseNum (intChars n ++ rest) = some (n, rest) := by
  obtain ⟨hne, hdig, hval⟩ := natChars_spec n.natAbs
  have hemp : (natChars n.natAbs).isEmpty = false := by
    cases hc : natChars n.natAbs with
    | nil => exact absurd hc hne
    | cons c cs => rfl
  obtain ⟨htake, hdrop⟩ :=
    takeWhile_append_all (p := Char.isDigit) (natChars n.natAbs) rest hdig hrest
  have hemp2 : ((natChars n.natAbs ++ rest).takeWhile Char.isDigit).isEmpty = false := by
    rw [htake]; exact hemp
  by_cases hneg : n < 0
  · simp only [intChars, if_pos hneg, List.cons_append, parseNum]
    simp only [if_true]
    have hcond : ¬ (((natChars n.natAbs ++ rest).takeWhile Char.isDigit).isEmpty = true) := by
      rw [htake, hemp]; simp
    rw [if_neg hcond, htake, hdrop, hval]
    have hn : -(n.natAbs : Int) = n := by omega
    rw [hn]
  · simp only [intChars, if_neg hneg]
    obtain ⟨c, cs, hc, hcdig⟩ : ∃ c cs, natChars n.natAbs = c :: cs ∧ c.isDigit = true := by
      cases hc : natChars n.natAbs with
      | nil => exact absurd hc hne
      | cons c cs => exact ⟨c, cs, rfl, hdig c (by rw [hc]; exact List.mem_cons_self c cs)⟩
    rw [hc, List.cons_append]
    simp only [parseNum]
    have hcm : ¬ c = '-' := by
      intro h; rw [h] at hcdig; exact absurd hcdig (by decide)
    rw [if_neg hcm, ← List.cons_append, ← hc, htake, hdrop]
    have hcond : ¬ ((natChars n.natAbs).isEmpty = true) := by rw [hemp]; simp
    rw [if_neg hcond, hval]
    have hn : ((n.natAbs : Nat) : Int) = n := by omega
    rw [hn]

theorem parseStrBody_round :
    ∀ (cs acc rest : List Char),
      parseStrBody (escChars cs ++ '"' :: rest) acc =
        some (String.mk (acc.reverse ++ cs), rest) := by
  intro cs
  induction cs with
  | nil =>
    intro acc rest
    simp only [escChars, List.nil_append, List.append_nil]
    unfold parseStrBody
    rw [if_pos rfl]
  | cons c cs ih =>
    intro acc rest
    by_cases hesc : c = '"' ∨ c = '\\'
    · simp only [escChars, if_pos hesc, List.cons_append, List.append_assoc,
        List.nil_append]
      unfold parseStrBody
      rw [if_neg (by decide : ¬ ('\\' : Char) = '"'),
        if_pos (rfl : ('\\' : Char) = '\\')]
      dsimp only
      rw [if_pos hesc, ih, List.reverse_cons, List.append_assoc,
        List.singleton_append]
    · have h1 : ¬ c = '"' := fun h => hesc (Or.inl h)
      have h2 : ¬ c = '\\' := fun h => hesc (Or.inr h)
      simp only [escChars, if_neg hesc, List.cons_append, List.nil_append]
      unfold parseStrBody
      rw [if_neg h1, if_neg h2, ih, List.reverse_cons, List.append_assoc,
        List.singleton_append]

theorem safeRest_cons (c : Char) (h : c.isDigit = false) (l : List Char) :
    safeRest (c :: l) := by
  intro d hd
  simp only [List.head?_cons, Option.some.injEq] at hd
  subst hd
  exact h

theorem headChar_nonliteral (c : Char) (h : c = '-' ∨ c.isDigit = true) :
    ¬ c = 'n' ∧ ¬ c = 't' ∧ ¬ c = 'f' ∧ ¬ c = '"' ∧ ¬ c = '[' ∧ ¬ c = '\x7b' := by
  rcases h with h | h
  · subst h
    exact ⟨by decide, by decide, by decide, by decide, by decide, by decide⟩
  · obtain ⟨h1, h2, h3, h4, h5, h6, _⟩ := nonliteral_of_digit c h
    exact ⟨h1, h2, h3, h4, h5, h6⟩

theorem intChars_head (n : Int) :
    ∃ c cs, intChars n = c :: cs ∧ (c = '-' ∨ c.isDigit = true) := by
  by_cases hn : n < 0
  · exact ⟨'-', natChars n.natAbs, by simp [intChars, hn], Or.inl rfl⟩
  · obtain ⟨c, cs, hc, hd⟩ := natChars_head n.natAbs
    exact ⟨c, cs, by simp [intChars, hn, hc], Or.inr hd⟩

theorem dumpsJ_head (j : J) :
    ∃ c t, dumpsJ j = c :: t ∧
      (c = 'n' ∨ c = 't' ∨ c = 'f' ∨ c = '"' ∨ c = '[' ∨ c = '\x7b' ∨
        c = '-' ∨ c.isDigit = true) := by
  cases j with
  | null => exact ⟨'n', ['u', 'l', 'l'], rfl, by simp⟩
  | bool b =>
    cases b with
    | true => exact ⟨'t', ['r', 'u', 'e'], rfl, by simp⟩
    | false => exact ⟨'f', ['a', 'l', 's', 'e'], rfl, by simp⟩
  | num n =>
    obtain ⟨c, cs, hc, hd⟩ := intChars_head n
    refine ⟨c, cs, by rw [show dumpsJ (J.num n) = intChars n from rfl, hc], ?_⟩
    rcases hd with h | h
    · exact Or.inr (Or.inr (Or.inr (Or.inr (Or.inr (Or.inr (Or.inl h))))))
    · exact Or.inr (Or.inr (Or.inr (Or.inr (Or.inr (Or.inr (Or.inr h))))))
  | str s => exact ⟨'"', escChars s.toList ++ ['"'], rfl, by simp⟩
  | arr xs => exact ⟨'[', dumpsArr xs ++ [']'], rfl, by simp⟩
  | obj fs => exact ⟨'\x7b', dumpsObj fs ++ ['\x7d'], rfl, by simp⟩

theorem dumpsArr_cons_head (x : J) (tl : JList) :
    ∃ c t, dumpsArr (.cons x tl) = c :: t ∧
      (c = 'n' ∨ c = 't' ∨ c = 'f' ∨ c = '"' ∨ c = '[' ∨ c = '\x7b' ∨
        c = '-' ∨ c.isDigit = true) := by
  obtain ⟨c, t, hc, hd⟩ := dumpsJ_head x
  cases tl with
  | nil => exact ⟨c, t, by rw [show dumpsArr (JList.cons x .nil) = dumpsJ x from rfl, hc], hd⟩
  | cons y tl2 =>
    refine ⟨c, t ++ ',' :: ' ' :: dumpsArr (.cons y tl2), ?_, hd⟩
    rw [show dumpsArr (JList.cons x (JList.cons y tl2)) =
      dumpsJ x ++ ',' :: ' ' :: dumpsArr (JList.cons y tl2) from rfl, hc,
      List.cons_append]

theorem head_ne_brackets (c : Char)
    (h : c = 'n' ∨ c = 't' ∨ c = 'f' ∨ c = '"' ∨ c = '[' ∨ c = '\x7b' ∨
      c = '-' ∨ c.isDigit = true) :
    ¬ c = ']' ∧ ¬ c = '\x7d' := by
  constructor <;> intro hc <;> subst hc <;>
    rcases h with h | h | h | h | h | h | h | h <;> exact absurd h (by decide)

theorem parseJ_succ (fuel : Nat) (input : List Char) :
    parseJ (fuel + 1) input =
      parseJBody (parseElems fuel) (parseFields fuel) input := rfl

theorem parseElems_succ (fuel : Nat) (input : List Char) :
    parseElems (fuel + 1) input =
      parseElemsBody (parseJ fuel) (parseElems fuel) input := rfl

theorem parseFields_succ (fuel : Nat) (input : List Char) :
    parseFields (fuel + 1) input =
      parseFieldsBody (parseJ fuel) (parseFields fuel) input := rfl

theorem parse_round :
    ∀ fuel : Nat,
      (∀ (j : J) (rest : List Char), sizeJ j ≤ fuel → safeRest rest →
        parseJ fuel (dumpsJ j ++ rest) = some (j, rest)) ∧
      (∀ (x : J) (tl : JList) (rest : List Char), sizeL (.cons x tl) ≤ fuel →
        parseElems fuel (dumpsArr (.cons x tl) ++ ']' :: rest) =
          some (.cons x tl, rest)) ∧
      (∀ (k : String) (v : J) (tl : JObj) (rest : List Char),
        sizeO (.ocons k v tl) ≤ fuel →
        parseFields fuel (dumpsObj (.ocons k v tl) ++ '\x7d' :: rest) =
          some (.ocons k v tl, rest)) := by
  intro fuel
  induction fuel with
  | zero =>
    refine ⟨?_, ?_, ?_⟩
    · intro j rest hsz _
      have := sizeJ_pos j
      omega
    · intro x tl rest hsz
      rw [show sizeL (JList.cons x tl) = 1 + sizeJ x + sizeL tl from rfl] at hsz
      omega
    · intro k v tl rest hsz
      rw [show sizeO (JObj.ocons k v tl) = 1 + sizeJ v + sizeO tl from rfl] at hsz
      omega
  | succ fuel ih =>
    obtain ⟨ihA, ihB, ihC⟩ := ih
    refine ⟨?_, ?_, ?_⟩
    · intro j rest hsz hsafe
      cases j with
      | null => exact rfl
      | bool b => cases b with | true => exact rfl | false => exact rfl
      | num n =>
        obtain ⟨c, cs, hic, hd⟩ := intChars_head n
        have hpn : parseNum (intChars n ++ rest) = some (n, rest) :=
          parseNum_round n rest hsafe
        rw [hic, List.cons_append] at hpn
        rw [show dumpsJ (J.num n) = intChars n from rfl, hic, List.cons_append]
        obtain ⟨h1, h2, h3, h4, h5, h6⟩ := headChar_nonliteral c hd
        rw [parseJ_succ]
        unfold parseJBody
        dsimp only
        rw [if_neg h1, if_neg h2, if_neg h3, if_neg h4, if_neg h5, if_neg h6, hpn]
      | str s =>
        rw [show dumpsJ (J.str s) ++ rest =
          '"' :: (escChars s.toList ++ '"' :: rest) by
            rw [show dumpsJ (J.str s) = '"' :: (escChars s.toList ++ ['"']) from rfl,
              List.cons_append, List.append_assoc, List.singleton_append]]
        rw [parseJ_succ]
        unfold parseJBody
        dsimp only
        rw [if_neg (by decide : ¬ ('"' : Char) = 'n'),
          if_neg (by decide : ¬ ('"' : Char) = 't'),
          if_neg (by decide : ¬ ('"' : Char) = 'f'),
          if_pos (rfl : ('"' : Char) = '"'),
          parseStrBody_round s.toList [] rest]
        dsimp only
        rw [List.reverse_nil, List.nil_append, mk_toList]
      | arr xs =>
        cases xs with
        | nil =>
          rw [show dumpsJ (J.arr .nil) ++ rest = '[' :: ']' :: rest from rfl]
          exact rfl
        | cons x tl =>
          obtain ⟨c, t, hca, hd⟩ := dumpsArr_cons_head x tl
          have hne : ¬ c = ']' := (head_ne_brackets c hd).1
          have hsz2 : sizeL (.cons x tl) ≤ fuel := by
            rw [show sizeJ (J.arr (JList.cons x tl)) =
              1 + sizeL (JList.cons x tl) from rfl] at hsz
            omega
          have hB := ihB x tl rest hsz2
          rw [show dumpsJ (J.arr (JList.cons x tl)) ++ rest =
            '[' :: (dumpsArr (JList.cons x tl) ++ ']' :: rest) by
              rw [show dumpsJ (J.arr (JList.cons x tl)) =
                '[' :: (dumpsArr (JList.cons x tl) ++ [']']) from rfl,
                List.cons_append, List.append_assoc, List.singleton_append]]
          rw [hca, List.cons_append]
          rw [parseJ_succ]
          unfold parseJBody
          dsimp only
          rw [if_neg (by decide : ¬ ('[' : Char) = 'n'),
            if_neg (by decide : ¬ ('[' : Char) = 't'),
            if_neg (by decide : ¬ ('[' : Char) = 'f'),
            if_neg (by decide : ¬ ('[' : Char) = '"'),
            if_pos (rfl : ('[' : Char) = '[')]
          rw [if_neg hne, ← List.cons_append, ← hca, hB]
      | obj fs =>
        cases fs with
        | onil =>
          rw [show dumpsJ (J.obj .onil) ++ rest = '\x7b' :: '\x7d' :: rest from rfl]
          exact rfl
        | ocons k v tl =>
          have hobj : ∃ tt, dumpsObj (.ocons k v tl) = '"' :: tt := by
            cases tl with
            | onil => exact ⟨_, rfl⟩
            | ocons k2 v2 tl2 => exact ⟨_, rfl⟩
          obtain ⟨tt, htt⟩ := hobj
          have hsz2 : sizeO (.ocons k v tl) ≤ fuel := by
            rw [show sizeJ (J.obj (JObj.ocons k v tl)) =
              1 + sizeO (JObj.ocons k v tl) from rfl] at hsz
            omega
          have hC := ihC k v tl rest hsz2
          rw [show dumpsJ (J.obj (JObj.ocons k v tl)) ++ rest =
            '\x7b' :: (dumpsObj (JObj.ocons k v tl) ++ '\x7d' :: rest) by
              rw [show dumpsJ (J.obj (JObj.ocons k v tl)) =
                '\x7b' :: (dumpsObj (JObj.ocons k v tl) ++ ['\x7d']) from rfl,
                List.cons_append, List.append_assoc, List.singleton_append]]
          rw [htt, List.cons_append]
          rw [parseJ_succ]
          unfold parseJBody
          dsimp only
          rw [if_neg (by decide : ¬ ('\x7b' : Char) = 'n'),
            if_neg (by decide : ¬ ('\x7b' : Char) = 't'),
            if_neg (by decide : ¬ ('\x7b' : Char) = 'f'),
            if_neg (by decide : ¬ ('\x7b' : Char) = '"'),
            if_neg (by decide : ¬ ('\x7b' : Char) = '['),
            if_pos (rfl : ('\x7b' : Char) = '\x7b')]
          rw [if_neg (by decide : ¬ ('"' : Char) = '\x7d'), ← List.cons_append,
            ← htt, hC]
    · intro x tl rest hsz
      have hszx : sizeJ x ≤ fuel := by
        rw [show sizeL (JList.cons x tl) = 1 + sizeJ x + sizeL tl from rfl] at hsz
        omega
      cases tl with
      | nil =>
        rw [show dumpsArr (JList.cons x .nil) = dumpsJ x from rfl]
        have hA := ihA x (']' :: rest) hszx (safeRest_cons ']' (by decide) rest)
        rw [parseElems_succ]
        unfold parseElemsBody
        rw [hA]
        dsimp only
        rw [if_pos (rfl : (']' : Char) = ']')]
      | cons y tl2 =>
        have hsz3 : sizeL (.cons y tl2) ≤ fuel := by
          rw [show sizeL (JList.cons x (JList.cons y tl2)) =
            1 + sizeJ x + sizeL (JList.cons y tl2) from rfl] at hsz
          omega
        have hA := ihA x (',' :: ' ' :: (dumpsArr (.cons y tl2) ++ ']' :: rest))
          hszx (safeRest_cons ',' (by decide) _)
        have hB2 := ihB y tl2 rest hsz3
        rw [show dumpsArr (JList.cons x (JList.cons y tl2)) ++ ']' :: rest =
          dumpsJ x ++ ',' :: ' ' :: (dumpsArr (JList.cons y tl2) ++ ']' :: rest) by
            rw [show dumpsArr (JList.cons x (JList.cons y tl2)) =
              dumpsJ x ++ ',' :: ' ' :: dumpsArr (JList.cons y tl2) from rfl,
              List.append_assoc, List.cons_append, List.cons_append]]
        rw [parseElems_succ]
        unfold parseElemsBody
        rw [hA]
        dsimp only
        rw [if_neg (by decide : ¬ (',' : Char) = ']'),
          if_pos (rfl : (',' : Char) = ','),
          if_pos (rfl : (' ' : Char) = ' '), hB2]
    · intro k v tl rest hsz
      have hszv : sizeJ v ≤ fuel := by
        rw [show sizeO (JObj.ocons k v tl) = 1 + sizeJ v + sizeO tl from rfl] at hsz
        omega
      cases tl with
      | onil =>
        rw [show dumpsObj (JObj.ocons k v .onil) ++ '\x7d' :: rest =
          '"' :: (escChars k.toList ++
            '"' :: (':' :: ' ' :: (dumpsJ v ++ '\x7d' :: rest))) by
            rw [show dumpsObj (JObj.ocons k v .onil) =
              '"' :: (escChars k.toList ++ '"' :: ':' :: ' ' :: dumpsJ v) from rfl,
              List.cons_append, List.append_assoc, List.cons_append,
              List.cons_append, List.cons_append]]
        have hA := ihA v ('\x7d' :: rest) hszv (safeRest_cons '\x7d' (by decide) rest)
        rw [parseFields_succ]
        unfold parseFieldsBody
        dsimp only
        rw [if_pos (rfl : ('"' : Char) = '"'),
          parseStrBody_round k.toList [] (':' :: ' ' :: (dumpsJ v ++ '\x7d' :: rest))]
        dsimp only
        rw [if_pos (rfl : (':' : Char) = ':'),
          if_pos (rfl : (' ' : Char) = ' '), hA]
        dsimp only
        rw [if_pos (rfl : ('\x7d' : Char) = '\x7d'), List.reverse_nil,
          List.nil_append, mk_toList]
      | ocons k2 v2 tl2 =>
        have hsz3 : sizeO (.ocons k2 v2 tl2) ≤ fuel := by
          rw [show sizeO (JObj.ocons k v (JObj.ocons k2 v2 tl2)) =
            1 + sizeJ v + sizeO (JObj.ocons k2 v2 tl2) from rfl] at hsz
          omega
        have hC2 := ihC k2 v2 tl2 rest hsz3
        have hA := ihA v
          (',' :: ' ' :: (dumpsObj (.ocons k2 v2 tl2) ++ '\x7d' :: rest))
          hszv (safeRest_cons ',' (by decide) _)
        rw [show dumpsObj (JObj.ocons k v (JObj.ocons k2 v2 tl2)) ++ '\x7d' :: rest =
          '"' :: (escChars k.toList ++
            '"' :: (':' :: ' ' :: (dumpsJ v ++
              ',' :: ' ' :: (dumpsObj (JObj.ocons k2 v2 tl2) ++ '\x7d' :: rest)))) by
            simp [dumpsObj]]
        rw [parseFields_succ]
        unfold parseFieldsBody
        dsimp only
        rw [if_pos (rfl : ('"' : Char) = '"'),
          parseStrBody_round k.toList []
            (':' :: ' ' :: (dumpsJ v ++
              ',' :: ' ' :: (dumpsObj (JObj.ocons k2 v2 tl2) ++ '\x7d' :: rest)))]
        dsimp only
        rw [if_pos (rfl : (':' : Char) = ':'),
          if_pos (rfl : (' ' : Char) = ' '), hA]
        dsimp only
        rw [if_neg (by decide : ¬ (',' : Char) = '\x7d'),
          if_pos (rfl : (',' : Char) = ','),
          if_pos (rfl : (' ' : Char) = ' '), hC2, List.reverse_nil,
          List.nil_append, mk_toList]

theorem size_le_len :
    ∀ fuel : Nat,
      (∀ j : J, sizeJ j ≤ fuel → sizeJ j ≤ (dumpsJ j).length) ∧
      (∀ xs : JList, sizeL xs ≤ fuel → sizeL xs ≤ (dumpsArr xs).length + 1) ∧
      (∀ fs : JObj, sizeO fs ≤ fuel → sizeO fs ≤ (dumpsObj fs).length + 1) := by
  intro fuel
  induction fuel with
  | zero =>
    refine ⟨?_, ?_, ?_⟩
    · intro j h
      have := sizeJ_pos j
      omega
    · intro xs h
      cases xs with
      | nil => rw [show sizeL JList.nil = 0 from rfl]; omega
      | cons x tl =>
        rw [show sizeL (JList.cons x tl) = 1 + sizeJ x + sizeL tl from rfl] at h
        omega
    · intro fs h
      cases fs with
      | onil => rw [show sizeO JObj.onil = 0 from rfl]; omega
      | ocons k v tl =>
        rw [show sizeO (JObj.ocons k v tl) = 1 + sizeJ v + sizeO tl from rfl] at h
        omega
  | succ fuel ih =>
    obtain ⟨ihJ, ihL, ihO⟩ := ih
    refine ⟨?_, ?_, ?_⟩
    · intro j hsz
      cases j with
      | null => decide
      | bool b => cases b <;> decide
      | num n =>
        rw [show sizeJ (J.num n) = 1 from rfl,
          show dumpsJ (J.num n) = intChars n from rfl]
        obtain ⟨c, cs, hic, _⟩ := intChars_head n
        rw [hic]
        simp
      | str s =>
        rw [show sizeJ (J.str s) = 1 from rfl,
          show dumpsJ (J.str s) = '"' :: (escChars s.toList ++ ['"']) from rfl]
        simp
      | arr xs =>
        have hx : sizeL xs ≤ fuel := by
          rw [show sizeJ (J.arr xs) = 1 + sizeL xs from rfl] at hsz
          omega
        have h1 := ihL xs hx
        rw [show sizeJ (J.arr xs) = 1 + sizeL xs from rfl,
          show dumpsJ (J.arr xs) = '[' :: (dumpsArr xs ++ [']']) from rfl]
        simp only [List.length_cons, List.length_append, List.length_singleton]
        omega
      | obj fs =>
        have hx : sizeO fs ≤ fuel := by
          rw [show sizeJ (J.obj fs) = 1 + sizeO fs from rfl] at hsz
          omega
        have h1 := ihO fs hx
        rw [show sizeJ (J.obj fs) = 1 + sizeO fs from rfl,
          show dumpsJ (J.obj fs) = '\x7b' :: (dumpsObj fs ++ ['\x7d']) from rfl]
        simp only [List.length_cons, List.length_append, List.length_singleton]
        omega
    · intro xs hsz
      cases xs with
      | nil => rw [show sizeL JList.nil = 0 from rfl]; omega
      | cons x tl =>
        rw [show sizeL (JList.cons x tl) = 1 + sizeJ x + sizeL tl from rfl] at hsz ⊢
        have hx : sizeJ x ≤ fuel := by omega
        have h1 := ihJ x hx
        cases tl with
        | nil =>
          rw [show dumpsArr (JList.cons x .nil) = dumpsJ x from rfl,
            show sizeL JList.nil = 0 from rfl]
          omega
        | cons y tl2 =>
          have ht : sizeL (JList.cons y tl2) ≤ fuel := by
            rw [show sizeL (JList.cons y tl2) =
              1 + sizeJ y + sizeL tl2 from rfl] at hsz ⊢
            omega
          have h2 := ihL _ ht
          rw [show dumpsArr (JList.cons x (JList.cons y tl2)) =
            dumpsJ x ++ ',' :: ' ' :: dumpsArr (JList.cons y tl2) from rfl]
          simp only [List.length_append, List.length_cons]
          omega
    · intro fs hsz
      cases fs with
      | onil => rw [show sizeO JObj.onil = 0 from rfl]; omega
      | ocons k v tl =>
        rw [show sizeO (JObj.ocons k v tl) = 1 + sizeJ v + sizeO tl from rfl] at hsz ⊢
        have hv : sizeJ v ≤ fuel := by omega
        have h1 := ihJ v hv
        cases tl with
        | onil =>
          rw [show sizeO JObj.onil = 0 from rfl,
            show dumpsObj (JObj.ocons k v .onil) =
              '"' :: (escChars k.toList ++ '"' :: ':' :: ' ' :: dumpsJ v) from rfl]
          simp only [List.length_cons, List.length_append]
          omega
        | ocons k2 v2 tl2 =>
          have ht : sizeO (JObj.ocons k2 v2 tl2) ≤ fuel := by
            rw [show sizeO (JObj.ocons k2 v2 tl2) =
              1 + sizeJ v2 + sizeO tl2 from rfl] at hsz ⊢
            omega
          have h2 := ihO _ ht
          rw [show dumpsObj (JObj.ocons k v (JObj.ocons k2 v2 tl2)) =
            '"' :: (escChars k.toList ++ '"' :: ':' :: ' ' ::
              (dumpsJ v ++ ',' :: ' ' :: dumpsObj (JObj.ocons k2 v2 tl2))) by
              simp [dumpsObj]]
          simp only [List.length_cons, List.length_append]
          omega

/-- `json.loads` inverts `json.dumps`: the round-trip fidelity of the config
serialization. -/
theorem loads_dumps (j : J) : loads (dumps j) = some j := by
  have hsz : sizeJ j ≤ (dumpsJ j).length := (size_le_len (sizeJ j)).1 j le_rfl
  have hparse := (parse_round ((dumpsJ j).length + 1)).1 j [] (by omega)
    (by intro c hc; simp at hc)
  rw [List.append_nil] at hparse
  unfold loads dumps
  rw [show (String.mk (dumpsJ j)).toList = dumpsJ j from rfl,
    show (String.mk (dumpsJ j)).length = (dumpsJ j).length from rfl, hparse]

theorem find?_append_none {α : Type} (p : α → Bool) :
    ∀ (l1 l2 : List α), (∀ a ∈ l1, p a = false) →
      (l1 ++ l2).find? p = l2.find? p := by
  intro l1
  induction l1 with
  | nil => intro l2 _; simp
  | cons a l ih =>
    intro l2 h
    have ha : ¬ p a = true := by
      rw [h a (List.mem_cons_self a l)]
      simp
    rw [List.cons_append, List.find?_cons_of_neg _ ha,
      ih l2 (fun b hb => h b (List.mem_cons_of_mem a hb))]

/-! ## Claim C5 — non-owner project loading -/

/-- C5: for an authenticated user who does not own project id `pid` — whether
because the id does not exist or because the row belongs to someone else —
`load_project` returns the very same 404 "project not found or access denied"
response; the project record is never returned. -/
theorem load_project_nonowner (db : DB) (uid pid : Nat)
    (h : ∀ p ∈ db.projects, p.id = pid → p.owner_id ≠ uid) :
    load_project db (some uid) pid =
      .err 404 "project not found or access denied" := by
  simp only [load_project]
  cases hf : db.projects.find? (fun p => p.id == pid) with
  | none => rfl
  | some p =>
    have hmem := List.mem_of_find?_eq_some hf
    have hp := List.find?_some hf
    have hid : p.id = pid := by simpa using hp
    have hown := h p hmem hid
    simp [hown]

theorem load_project_nonowner_witness :
    (∀ p ∈ [ProjectRec.mk 7 2 "p1" "f.csv" "null"], p.id = 7 → p.owner_id ≠ 1) ∧
    load_project ⟨8, [ProjectRec.mk 7 2 "p1" "f.csv" "null"]⟩ (some 1) 7 =
      LoadResult.err 404 "project not found or access denied" :=
  ⟨by decide,
    load_project_nonowner ⟨8, [ProjectRec.mk 7 2 "p1" "f.csv" "null"]⟩ 1 7
      (by decide)⟩

/-! ## Claim C6 — config round trip through save and load -/

/-- C6: saving a project with any JSON config `config` and loading it back as
the same owner returns `config` itself: the stored `json.dumps` blob parses
back to an equal value. -/
theorem projectConfig_roundtrip (db : DB) (uploads : List String) (uid : Nat)
    (name : Option String) (file : String) (config : J) (db2 : DB) (pid : Nat)
    (hfile : file ∈ uploads) (hne : file ≠ "")
    (hfresh : ∀ p ∈ db.projects, p.id ≠ db.nextId)
    (hsave : save_project db uploads (some uid) name (some file) (some config) =
      (db2, .ok pid)) :
    load_project db2 (some uid) pid =
      .ok pid (name.getD "Untitled") file config := by
  simp only [save_project, if_neg hne, if_pos hfile, Option.getD_some,
    Prod.mk.injEq] at hsave
  obtain ⟨hdb2, hpid⟩ := hsave
  have hpid2 : db.nextId = pid := by
    cases hpid
    rfl
  subst hpid2
  subst hdb2
  have hfind :
      List.find? (fun p => p.id == db.nextId)
        (db.projects ++
          [{ id := db.nextId, owner_id := uid, name := name.getD "Untitled",
             file_path := file, config_json := dumps config }]) =
      some { id := db.nextId, owner_id := uid, name := name.getD "Untitled",
             file_path := file, config_json := dumps config } := by
    rw [find?_append_none _ _ _ (fun a ha => by
      have := hfresh a ha
      simp [this])]
    exact List.find?_cons_of_pos _ (by simp)
  simp only [load_project, hfind]
  rw [if_neg (by simp), loads_dumps config]

theorem projectConfig_roundtrip_witness :
    save_project ⟨0, []⟩ ["data.csv"] (some 1) none (some "data.csv")
        (some (J.obj (.ocons "x" (J.num 3) (.ocons "label" (J.str "a b") .onil)))) =
      (⟨1, [⟨0, 1, "Untitled", "data.csv",
          dumps (J.obj (.ocons "x" (J.num 3)
            (.ocons "label" (J.str "a b") .onil)))⟩]⟩,
        SaveResult.ok 0) ∧
    load_project
        ⟨1, [⟨0, 1, "Untitled", "data.csv",
          dumps (J.obj (.ocons "x" (J.num 3)
            (.ocons "label" (J.str "a b") .onil)))⟩]⟩
        (some 1) 0 =
      LoadResult.ok 0 "Untitled" "data.csv"
        (J.obj (.ocons "x" (J.num 3) (.ocons "label" (J.str "a b") .onil))) :=
  ⟨rfl,
    projectConfig_roundtrip ⟨0, []⟩ ["data.csv"] 1 none "data.csv"
      (J.obj (.ocons "x" (J.num 3) (.ocons "label" (J.str "a b") .onil)))
      ⟨1, [⟨0, 1, "Untitled", "data.csv",
        dumps (J.obj (.ocons "x" (J.num 3)
          (.ocons "label" (J.str "a b") .onil)))⟩]⟩
      0 (by decide) (by decide) (by simp) rfl⟩

/-! ## Claim C4 — malformed save_png input -/

/-- C4 (counterexample): a dataURL with no comma separator does not produce
an EncodingError client response: the tuple unpacking of `split(",", 1)`
raises an uncaught ValueError, i.e. an unhandled server failure. -/
theorem save_png_nocomma_cex :
    splitComma1 "nocomma" = none ∧
    save_png (some "c.png") (some "nocomma") = PngResult.serverError :=
  ⟨by decide, by decide⟩

/-- C4 (amended): a nonempty dataURL that lacks a comma, or whose post-comma
payload is rejected by base64 decoding (note the decoder silently discards
characters outside the base64 alphabet rather than rejecting them), makes
`save_png` fail with an uncaught exception — a server error, not an
EncodingError client error — and no file is written. -/
theorem save_png_malformed_serverError (name : Option String) (d : String)
    (hne : d ≠ "")
    (hbad : splitComma1 d = none ∨
      ∃ hdr payload, splitComma1 d = some (hdr, payload) ∧
        b64decode? payload = none) :
    save_png name (some d) = PngResult.serverError ∧
    (save_png name (some d)).written? = none := by
  have hres : save_png name (some d) = PngResult.serverError := by
    rcases hbad with hb | ⟨hdr, payload, hsplit, hdec⟩
    · simp [save_png, hne, hb]
    · simp [save_png, hne, hsplit, hdec]
  exact ⟨hres, by rw [hres]; rfl⟩

theorem save_png_malformed_serverError_witness :
    b64decode? "QQ".toList = none ∧
    (save_png (some "c.png") (some "data:image/png;base64,QQ") =
        PngResult.serverError ∧
      (save_png (some "c.png") (some "data:image/png;base64,QQ")).written? =
        none) :=
  ⟨by decide,
    save_png_malformed_serverError (some "c.png") "data:image/png;base64,QQ"
      (by decide)
      (Or.inr ⟨"data:image/png;base64".toList, "QQ".toList, by decide, by decide⟩)⟩
